import Mathlib

/-!
# Verification of the `mnist` dataset decoder

Shallow embedding of `dataset.go`: the image decoder `readIntensities`, the
label decoder `readLabels`, the dataset assembler `loadDataSet`, and the
derived view `LabelVectors`.  Decompressed byte streams are modelled as
`List (Fin 256)`; Go `float64` values produced by `b / 255.0` are modelled
as exact rationals; Go's 64-bit signed `int` arithmetic (`width * height`)
is modelled with explicit two's-complement wraparound.  Runtime panics
(negative-length `make`, out-of-range slice index) are explicit outcomes.
-/

namespace Mnist

/-- A byte of a decompressed stream. -/
abbrev Byte := Fin 256

/-- Big-endian 32-bit unsigned integer formed from the first four bytes of a
stream, as `binary.Read` with `binary.BigEndian` into a `uint32` does.  The
default byte `0` is never consulted by the decoder, which checks the stream
length before parsing the header. -/
def beU32 (s : List Byte) : Nat :=
  (s.getD 0 0).val * 16777216 + (s.getD 1 0).val * 65536 +
    (s.getD 2 0).val * 256 + (s.getD 3 0).val

/-- Go multiplication `w * h` of two nonnegative `int` values on a 64-bit
platform: the mathematical product wraps to two's complement, so products of
at least `2 ^ 63` come out negative. -/
def goMulInt64 (w h : Nat) : Int :=
  if w * h % 2 ^ 64 < 2 ^ 63 then ((w * h % 2 ^ 64 : Nat) : Int)
  else ((w * h % 2 ^ 64 : Nat) : Int) - 2 ^ 64

/-- Errors returned (as Go `error` values) by `readIntensities`:
`headerShort` for a failed `Discard`/`binary.Read` of the 16 header bytes,
`notEnoughData` for `errors.New("not enough data for image")`. -/
inductive ImgErr
  | headerShort
  | notEnoughData
  deriving DecidableEq

/-- Outcome of the per-image loop of `readIntensities`. -/
inductive BlocksOut
  | ok (blocks : List (List Byte)) (rest : List Byte)
  | truncated
  | panics
  deriving DecidableEq

/-- The loop `for j := range results` of `readIntensities`: each iteration
copies up to `width*height` bytes through an `io.LimitedReader` (a negative
limit reads nothing), fails if fewer than `width*height` bytes were copied,
and otherwise allocates `make([]uint8, width*height)` — which panics when the
product has wrapped to a negative `int` — and stores the copied bytes. -/
def readBlocks (prod : Int) : Nat → List Byte → BlocksOut
  | 0, s => .ok [] s
  | n + 1, s =>
      if ((min s.length prod.toNat : Nat) : Int) < prod then .truncated
      else if prod < 0 then .panics
      else
        match readBlocks prod n (s.drop prod.toNat) with
        | .ok bs rest => .ok (s.take prod.toNat :: bs) rest
        | .truncated => .truncated
        | .panics => .panics

/-- Outcome of `readIntensities`: a successful `(results, width, height)`
triple, a returned `error`, or a runtime panic. -/
inductive ImgResult
  | ok (blocks : List (List Byte)) (width height : Nat)
  | error (e : ImgErr)
  | panics
  deriving DecidableEq

/-- Function `readIntensities`: discard 4 bytes, read the big-endian `uint32` header
fields `count`, `width`, `height` (any read failing for lack of bytes returns
its error), then read `count` image blocks of `width*height` bytes each. -/
def readIntensities (s : List Byte) : ImgResult :=
  if s.length < 16 then .error .headerShort
  else
    match readBlocks (goMulInt64 (beU32 (s.drop 8)) (beU32 (s.drop 12)))
        (beU32 (s.drop 4)) (s.drop 16) with
    | .ok bs _ => .ok bs (beU32 (s.drop 8)) (beU32 (s.drop 12))
    | .truncated => .error .notEnoughData
    | .panics => .panics

/-- Errors returned by `readLabels`: `headerShort` for a failed `Discard(8)`,
`unexpectedEnd` for a `ReadByte` hitting end of stream. -/
inductive LabErr
  | headerShort
  | unexpectedEnd
  deriving DecidableEq

/-- The loop `for i := range res` of `readLabels`: read one byte per label;
an end-of-stream error aborts with no partial result. -/
def readLabelsLoop : Nat → List Byte → Option (List Nat)
  | 0, _ => some []
  | _ + 1, [] => none
  | n + 1, b :: s => (readLabelsLoop n s).map (fun l => b.val :: l)

/-- Outcome of `readLabels`. -/
inductive LabResult
  | ok (labels : List Nat)
  | error (e : LabErr)
  deriving DecidableEq

/-- Function `readLabels`: discard 8 bytes, then read exactly `count` single bytes as
integer labels. -/
def readLabels (s : List Byte) (count : Nat) : LabResult :=
  if s.length < 8 then .error .headerShort
  else
    match readLabelsLoop count (s.drop 8) with
    | some ls => .ok ls
    | none => .error .unexpectedEnd

/-- The conversion `floats[i] = float64(x) / 255.0` of `loadDataSet`, as an
exact rational. -/
def normalizeByte (b : Byte) : ℚ := (b.val : ℚ) / 255

/-- One instance of a handwritten digit (struct `Sample`). -/
structure Sample where
  Intensities : List ℚ
  Label : Nat
  deriving DecidableEq, Inhabited

/-- A collection of samples (struct `DataSet`). -/
structure DataSet where
  Samples : List Sample
  Width : Nat
  Height : Nat
  deriving DecidableEq, Inhabited

/-- Outcome of `loadDataSet`: the Go function returns a `DataSet` and has no
error result — every failure is a panic. -/
inductive LoadOut
  | ok (d : DataSet)
  | panics
  deriving DecidableEq

/-- Function `loadDataSet`, taking the two decompressed streams produced by
`assetReader` for the image and label assets.  `none` models a compressed
buffer `gzip.NewReader` rejects, on which `assetReader` panics; the label
buffer is only opened after the images decode successfully.  A decode error
from either decoder panics (`"failed to read images"` / `"failed to read
labels"`), and `readLabels` receives `len(intensities)` as its count. -/
def loadDataSet (imgZ labZ : Option (List Byte)) : LoadOut :=
  match imgZ with
  | none => .panics
  | some img =>
    match readIntensities img with
    | .error _ => .panics
    | .panics => .panics
    | .ok blocks w h =>
      match labZ with
      | none => .panics
      | some lab =>
        match readLabels lab blocks.length with
        | .error _ => .panics
        | .ok labels =>
          .ok { Samples := (blocks.zip labels).map
                  (fun p => { Intensities := p.1.map normalizeByte,
                              Label := p.2 }),
                Width := w, Height := h }

/-- Function `LoadTrainingDataSet`, abstracted over the collaborator-supplied
decompressed training streams. -/
def LoadTrainingDataSet (imgZ labZ : Option (List Byte)) : LoadOut :=
  loadDataSet imgZ labZ

/-- Function `LoadTestingDataSet`, abstracted over the collaborator-supplied
decompressed testing streams. -/
def LoadTestingDataSet (imgZ labZ : Option (List Byte)) : LoadOut :=
  loadDataSet imgZ labZ

/-- The per-sample body of `LabelVectors`: `res[i] = make([]float64, 10)`
followed by `res[i][sample.Label] = 1`, which panics (index out of range)
when the label is not below 10. -/
def labelVectorsLoop : List Sample → Option (List (List ℚ))
  | [] => some []
  | sm :: rest =>
      if sm.Label < 10 then
        (labelVectorsLoop rest).map
          (fun vs => (List.replicate 10 (0 : ℚ)).set sm.Label 1 :: vs)
      else none

/-- Outcome of `LabelVectors`: the one-hot vectors, or a runtime panic. -/
inductive VecsOut
  | ok (vecs : List (List ℚ))
  | panics
  deriving DecidableEq

/-- Method `DataSet.LabelVectors`. -/
def LabelVectors (d : DataSet) : VecsOut :=
  match labelVectorsLoop d.Samples with
  | some vs => .ok vs
  | none => .panics

/-! ## Basic lemmas about the embedded definitions -/

lemma beU32_lt (s : List Byte) : beU32 s < 2 ^ 32 := by
  have h0 := (s.getD 0 0).isLt
  have h1 := (s.getD 1 0).isLt
  have h2 := (s.getD 2 0).isLt
  have h3 := (s.getD 3 0).isLt
  unfold beU32
  omega

lemma goMulInt64_of_lt (w h : Nat) (hwh : w * h < 2 ^ 63) :
    goMulInt64 w h = ((w * h : Nat) : Int) := by
  unfold goMulInt64
  rw [Nat.mod_eq_of_lt (by omega)]
  rw [if_pos hwh]

lemma goMulInt64_zero (w h : Nat) (hz : w * h = 0) : goMulInt64 w h = 0 := by
  rw [goMulInt64_of_lt w h (by omega), hz]
  rfl

lemma goMulInt64_cases (w h : Nat) (hw : w < 2 ^ 32) (hh : h < 2 ^ 32) :
    goMulInt64 w h = ((w * h : Nat) : Int) ∨ goMulInt64 w h < 0 := by
  have hlt : w * h < 2 ^ 64 := by
    calc w * h < 2 ^ 32 * 2 ^ 32 :=
          mul_lt_mul'' hw hh (Nat.zero_le _) (Nat.zero_le _)
    _ = 2 ^ 64 := by norm_num
  by_cases hc : w * h < 2 ^ 63
  · exact Or.inl (goMulInt64_of_lt w h hc)
  · right
    unfold goMulInt64
    rw [Nat.mod_eq_of_lt hlt, if_neg hc]
    have : ((w * h : Nat) : Int) < 2 ^ 64 := by exact_mod_cast hlt
    omega

lemma readBlocks_zero_prod (n : Nat) (s : List Byte) :
    readBlocks 0 n s = .ok (List.replicate n []) s := by
  induction n generalizing s with
  | zero => rfl
  | succ n ih =>
      unfold readBlocks
      rw [if_neg (by simp), if_neg (by simp)]
      simp only [Int.toNat_zero, List.drop_zero, List.take_zero, ih]
      rfl

lemma readBlocks_ok_nonneg (prod : Int) (n : Nat) (s : List Byte)
    (bs : List (List Byte)) (rest : List Byte)
    (hok : readBlocks prod (n + 1) s = .ok bs rest) : 0 ≤ prod := by
  unfold readBlocks at hok
  split at hok
  · cases hok
  · split at hok
    · cases hok
    · omega

lemma readBlocks_ok_spec (p : Nat) (n : Nat) (s : List Byte)
    (bs : List (List Byte)) (rest : List Byte)
    (hok : readBlocks ((p : Nat) : Int) n s = .ok bs rest) :
    bs.length = n ∧ n * p ≤ s.length ∧ rest = s.drop (n * p) ∧
      (∀ b ∈ bs, b.length = p) ∧
      ∀ j, j < n → bs.getD j [] = (s.drop (j * p)).take p := by
  induction n generalizing s bs rest with
  | zero =>
      unfold readBlocks at hok
      cases hok
      simp
  | succ n ih =>
      unfold readBlocks at hok
      rw [Int.toNat_natCast] at hok
      split at hok
      · cases hok
      · split at hok
        · cases hok
        · rename_i hcopied _
          have hple : p ≤ s.length := by
            rw [Int.not_lt] at hcopied
            have : p ≤ min s.length p := by exact_mod_cast hcopied
            omega
          split at hok
          · rename_i bs' rest' heq
            cases hok
            obtain ⟨ihlen, ihle, ihrest, ihmem, ihget⟩ := ih _ _ _ heq
            have hdlen : (s.drop p).length = s.length - p := List.length_drop p s
            refine ⟨by simp [ihlen], ?_, ?_, ?_, ?_⟩
            · rw [Nat.succ_mul]
              omega
            · rw [ihrest, List.drop_drop, Nat.succ_mul, Nat.add_comm]
            · intro b hb
              rcases List.mem_cons.mp hb with rfl | hb'
              · rw [List.length_take]
                omega
              · exact ihmem b hb'
            · intro j hj
              cases j with
              | zero => simp
              | succ j =>
                  have hj' : j < n := by omega
                  simp only [List.getD_cons_succ]
                  rw [ihget j hj', List.drop_drop, Nat.succ_mul,
                    Nat.add_comm]
          · cases hok
          · cases hok

lemma readBlocks_truncated (p : Nat) (n : Nat) (s : List Byte)
    (hshort : s.length < n * p) :
    readBlocks ((p : Nat) : Int) n s = .truncated := by
  induction n generalizing s with
  | zero => simp at hshort
  | succ n ih =>
      rw [Nat.succ_mul] at hshort
      unfold readBlocks
      rw [Int.toNat_natCast]
      by_cases hlen : s.length < p
      · rw [if_pos]
        exact_mod_cast (by omega : min s.length p < p)
      · rw [if_neg (by exact_mod_cast (by omega : ¬ min s.length p < p)),
            if_neg (by simp)]
        have hrec : (s.drop p).length < n * p := by
          rw [List.length_drop]
          omega
        rw [ih _ hrec]

lemma readIntensities_ok_elim (s : List Byte) (blocks : List (List Byte))
    (w h : Nat) (hok : readIntensities s = .ok blocks w h) :
    16 ≤ s.length ∧ w = beU32 (s.drop 8) ∧ h = beU32 (s.drop 12) ∧
      ∃ rest, readBlocks (goMulInt64 (beU32 (s.drop 8)) (beU32 (s.drop 12)))
          (beU32 (s.drop 4)) (s.drop 16) = .ok blocks rest := by
  unfold readIntensities at hok
  split at hok
  · cases hok
  · rename_i hlen
    split at hok
    · rename_i bs rest heq
      cases hok
      exact ⟨by omega, rfl, rfl, rest, heq⟩
    · cases hok
    · cases hok

lemma readIntensities_ok_spec (s : List Byte) (blocks : List (List Byte))
    (w h : Nat) (hok : readIntensities s = .ok blocks w h) :
    16 ≤ s.length ∧ w = beU32 (s.drop 8) ∧ h = beU32 (s.drop 12) ∧
      blocks.length = beU32 (s.drop 4) ∧ (∀ b ∈ blocks, b.length = w * h) ∧
      ∀ j, j < blocks.length →
        blocks.getD j [] = (s.drop (16 + j * (w * h))).take (w * h) := by
  obtain ⟨h16, hw, hh, rest, heq⟩ := readIntensities_ok_elim s blocks w h hok
  rw [← hw, ← hh] at heq
  cases hc : beU32 (s.drop 4) with
  | zero =>
      rw [hc] at heq
      unfold readBlocks at heq
      cases heq
      refine ⟨h16, hw, hh, by simp, by simp, by simp⟩
  | succ n =>
      rw [hc] at heq
      have hcast : goMulInt64 w h = ((w * h : Nat) : Int) := by
        have hnn : 0 ≤ goMulInt64 w h := readBlocks_ok_nonneg _ n _ _ _ heq
        rcases goMulInt64_cases w h (by rw [hw]; exact beU32_lt _)
            (by rw [hh]; exact beU32_lt _) with hcc | hneg
        · exact hcc
        · omega
      rw [hcast] at heq
      obtain ⟨hlen, hle, _, hmem, hget⟩ := readBlocks_ok_spec (w * h) (n + 1) _ _ _ heq
      refine ⟨h16, hw, hh, by omega, hmem, ?_⟩
      intro j hj
      rw [hget j (by omega), List.drop_drop, Nat.add_comm]

lemma readLabelsLoop_eq (n : Nat) (l : List Byte) :
    readLabelsLoop n l =
      if n ≤ l.length then some ((l.take n).map Fin.val) else none := by
  induction n generalizing l with
  | zero => simp [readLabelsLoop]
  | succ n ih =>
      cases l with
      | nil => simp [readLabelsLoop]
      | cons b t =>
          simp only [readLabelsLoop, ih, List.length_cons, List.take_succ_cons,
            List.map_cons, Nat.add_le_add_iff_right]
          split
          · rfl
          · rfl

lemma readLabels_eq (s : List Byte) (count : Nat) :
    readLabels s count =
      if 8 + count ≤ s.length then .ok (((s.drop 8).take count).map Fin.val)
      else .error (if s.length < 8 then .headerShort else .unexpectedEnd) := by
  unfold readLabels
  rw [readLabelsLoop_eq, List.length_drop]
  by_cases h8 : s.length < 8
  · rw [if_pos h8, if_neg (by omega), if_pos h8]
  · rw [if_neg h8]
    by_cases hc : 8 + count ≤ s.length
    · rw [if_pos (by omega), if_pos hc]
    · rw [if_neg (by omega), if_neg hc, if_neg h8]

lemma readLabels_ok_elim (s : List Byte) (count : Nat) (ls : List Nat)
    (hok : readLabels s count = .ok ls) :
    8 + count ≤ s.length ∧ ls = ((s.drop 8).take count).map Fin.val ∧
      ls.length = count := by
  rw [readLabels_eq] at hok
  split at hok
  · rename_i hc
    cases hok
    refine ⟨hc, rfl, ?_⟩
    rw [List.length_map, List.length_take, List.length_drop]
    omega
  · cases hok

lemma loadDataSet_ok_elim (img lab : List Byte) (d : DataSet)
    (hok : loadDataSet (some img) (some lab) = .ok d) :
    ∃ blocks w h labels,
      readIntensities img = .ok blocks w h ∧
      readLabels lab blocks.length = .ok labels ∧
      d = { Samples := (blocks.zip labels).map
              (fun p => { Intensities := p.1.map normalizeByte, Label := p.2 }),
            Width := w, Height := h } := by
  simp only [loadDataSet] at hok
  split at hok
  · cases hok
  · cases hok
  · rename_i blocks w h hI
    split at hok
    · cases hok
    · rename_i labels hL
      cases hok
      exact ⟨blocks, w, h, labels, hI, hL, rfl⟩

lemma labelVectorsLoop_all (samples : List Sample)
    (hall : ∀ sm ∈ samples, sm.Label < 10) :
    labelVectorsLoop samples =
      some (samples.map (fun sm => (List.replicate 10 (0 : ℚ)).set sm.Label 1)) := by
  induction samples with
  | nil => rfl
  | cons a t ih =>
      have ha : a.Label < 10 := hall a (List.mem_cons_self a t)
      simp only [labelVectorsLoop, if_pos ha, List.map_cons,
        ih (fun sm hm => hall sm (List.mem_cons_of_mem a hm))]
      rfl

lemma labelVectorsLoop_bad (samples : List Sample) (sm : Sample)
    (hm : sm ∈ samples) (hL : 10 ≤ sm.Label) :
    labelVectorsLoop samples = none := by
  induction samples with
  | nil => cases hm
  | cons a t ih =>
      unfold labelVectorsLoop
      rcases List.mem_cons.mp hm with rfl | hm'
      · rw [if_neg (by omega)]
      · by_cases ha : a.Label < 10
        · rw [if_pos ha, ih hm']
          rfl
        · rw [if_neg ha]

lemma oneHot_length (L : Nat) :
    ((List.replicate 10 (0 : ℚ)).set L 1).length = 10 := by
  rw [List.length_set, List.length_replicate]

lemma oneHot_getD_self (L : Nat) (hL : L < 10) :
    ((List.replicate 10 (0 : ℚ)).set L 1).getD L 0 = 1 := by
  rw [List.getD_eq_getElem _ _ (by simpa [oneHot_length] using hL)]
  rw [List.getElem_set_self]

lemma oneHot_getD_other (L j : Nat) (hj : j ≠ L) :
    ((List.replicate 10 (0 : ℚ)).set L 1).getD j 0 = 0 := by
  by_cases hj10 : j < 10
  · rw [List.getD_eq_getElem _ _ (by simpa [oneHot_length] using hj10)]
    rw [List.getElem_set_ne (by omega)]
    apply List.getElem_replicate
  · exact List.getD_eq_default _ _ (by simp [oneHot_length]; omega)

lemma readIntensities_pref (p r : List Byte) (hp : p.length = 4) :
    readIntensities (p ++ r) = readIntensities (List.replicate 4 0 ++ r) := by
  have e1 : ∀ q : List Byte, q.length = 4 → (q ++ r).drop 4 = r := by
    intro q hq
    rw [← hq, List.drop_left]
  have e2 : ∀ q : List Byte, q.length = 4 → (q ++ r).drop 8 = r.drop 4 := by
    intro q hq
    rw [show (8 : Nat) = 4 + 4 from rfl, ← List.drop_drop, e1 q hq]
  have e3 : ∀ q : List Byte, q.length = 4 → (q ++ r).drop 12 = r.drop 8 := by
    intro q hq
    rw [show (12 : Nat) = 4 + 8 from rfl, ← List.drop_drop, e1 q hq]
  have e4 : ∀ q : List Byte, q.length = 4 → (q ++ r).drop 16 = r.drop 12 := by
    intro q hq
    rw [show (16 : Nat) = 4 + 12 from rfl, ← List.drop_drop, e1 q hq]
  have hrep : (List.replicate 4 (0 : Byte)).length = 4 := by simp
  unfold readIntensities
  rw [List.length_append, hp, List.length_append, hrep,
    e1 p hp, e1 _ hrep, e2 p hp, e2 _ hrep, e3 p hp, e3 _ hrep,
    e4 p hp, e4 _ hrep]

/-! ## Concrete example data -/

/-- An image stream with header `{count = 2, width = 2, height = 2}` followed
by eight pixel bytes. -/
def exImg : List Byte :=
  [0, 0, 0, 0, 0, 0, 0, 2, 0, 0, 0, 2, 0, 0, 0, 2,
   0, 255, 128, 64, 255, 0, 0, 255]

/-- The two image blocks of `exImg`. -/
def exBlocks : List (List Byte) := [[0, 255, 128, 64], [255, 0, 0, 255]]

/-- A label stream with an 8-byte prefix followed by the labels 3 and 7. -/
def exLab : List Byte := [0, 0, 0, 0, 0, 0, 0, 0, 3, 7]

/-- The dataset decoded from `exImg` and `exLab`. -/
def exDS : DataSet :=
  { Samples := [{ Intensities := [normalizeByte 0, normalizeByte 255,
                    normalizeByte 128, normalizeByte 64], Label := 3 },
                { Intensities := [normalizeByte 255, normalizeByte 0,
                    normalizeByte 0, normalizeByte 255], Label := 7 }],
    Width := 2, Height := 2 }

/-- An image stream whose header declares `count = 1`, `width = 0`,
`height = 2`, with no data bytes. -/
def zeroDimImg : List Byte := [0, 0, 0, 0, 0, 0, 0, 1, 0, 0, 0, 0, 0, 0, 0, 2]

/-- An image stream whose header declares `count = 1` and
`width = height = 2^32 - 1`, so the Go product `width * height` wraps to a
negative 64-bit `int`. -/
def hugeDimImg : List Byte :=
  [0, 0, 0, 0, 0, 0, 0, 1, 255, 255, 255, 255, 255, 255, 255, 255]

/-- An image stream whose header declares `{count = 1, width = 2, height = 2}`
but whose data region holds only 3 of the 4 required bytes. -/
def shortImg : List Byte :=
  [0, 0, 0, 0, 0, 0, 0, 1, 0, 0, 0, 2, 0, 0, 0, 2, 1, 2, 3]

/-- A dataset with in-range labels 3 and 7. -/
def smallDS : DataSet :=
  { Samples := [{ Intensities := [], Label := 3 },
                { Intensities := [], Label := 7 }],
    Width := 0, Height := 0 }

/-- A dataset containing a sample with the out-of-range label 10. -/
def badDS : DataSet :=
  { Samples := [{ Intensities := [], Label := 10 }], Width := 0, Height := 0 }

/-! ## The claims -/

/-- Claim C1: for every decompressed image byte stream, the image decoder
skips the first 4 bytes, reads three big-endian 32-bit unsigned integers
`count`, `width`, `height` in that order, and on success returns exactly
`count` byte vectors, each of length `width * height`, in the order the
blocks appear in the stream, together with `width` and `height`. -/
theorem image_decoder_layout (s : List Byte) (blocks : List (List Byte))
    (w h : Nat) (hok : readIntensities s = .ok blocks w h) :
    16 ≤ s.length ∧ w = beU32 (s.drop 8) ∧ h = beU32 (s.drop 12) ∧
      blocks.length = beU32 (s.drop 4) ∧ (∀ b ∈ blocks, b.length = w * h) ∧
      ∀ j, j < blocks.length →
        blocks.getD j [] = (s.drop (16 + j * (w * h))).take (w * h) :=
  readIntensities_ok_spec s blocks w h hok

/-- Witness for C1 at the concrete stream `exImg`. -/
theorem image_decoder_layout_witness :
    readIntensities exImg = .ok exBlocks 2 2 ∧
      (16 ≤ exImg.length ∧ 2 = beU32 (exImg.drop 8) ∧
        2 = beU32 (exImg.drop 12) ∧ exBlocks.length = beU32 (exImg.drop 4) ∧
        (∀ b ∈ exBlocks, b.length = 2 * 2) ∧
        ∀ j, j < exBlocks.length →
          exBlocks.getD j [] = (exImg.drop (16 + j * (2 * 2))).take (2 * 2)) :=
  ⟨by decide, image_decoder_layout exImg exBlocks 2 2 (by decide)⟩

/-- Claim C2: for every successfully decoded `DataSet`, the number of decoded
image blocks, the number of decoded labels and `len(DataSet.Samples)` all
equal the `count` parsed from the image header, and every sample's intensity
vector has length `width * height`. -/
theorem pipeline_counts_agree (img lab : List Byte) (d : DataSet)
    (hok : loadDataSet (some img) (some lab) = .ok d) :
    ∃ blocks w h labels,
      readIntensities img = .ok blocks w h ∧
      readLabels lab blocks.length = .ok labels ∧
      blocks.length = beU32 (img.drop 4) ∧
      labels.length = beU32 (img.drop 4) ∧
      d.Samples.length = beU32 (img.drop 4) ∧
      ∀ sm ∈ d.Samples, sm.Intensities.length = w * h := by
  obtain ⟨blocks, w, h, labels, hI, hL, rfl⟩ := loadDataSet_ok_elim img lab d hok
  obtain ⟨_, _, _, hcnt, hblen, _⟩ := readIntensities_ok_spec img blocks w h hI
  obtain ⟨_, _, hlablen⟩ := readLabels_ok_elim lab blocks.length labels hL
  refine ⟨blocks, w, h, labels, hI, hL, hcnt, by omega, ?_, ?_⟩
  · simp only [List.length_map, List.length_zip]
    omega
  · intro sm hsm
    obtain ⟨⟨blk, lb⟩, hp, rfl⟩ := List.mem_map.mp hsm
    show (blk.map normalizeByte).length = w * h
    rw [List.length_map]
    exact hblen blk (List.of_mem_zip hp).1

/-- Witness for C2 at the concrete streams `exImg` and `exLab`. -/
theorem pipeline_counts_agree_witness :
    loadDataSet (some exImg) (some exLab) = .ok exDS ∧
      ∃ blocks w h labels,
        readIntensities exImg = .ok blocks w h ∧
        readLabels exLab blocks.length = .ok labels ∧
        blocks.length = beU32 (exImg.drop 4) ∧
        labels.length = beU32 (exImg.drop 4) ∧
        exDS.Samples.length = beU32 (exImg.drop 4) ∧
        ∀ sm ∈ exDS.Samples, sm.Intensities.length = w * h :=
  ⟨rfl, pipeline_counts_agree exImg exLab exDS rfl⟩

/-- Counterexample to C3: on `zeroDimImg` the header parses with `width = 0`,
yet decoding succeeds with one empty intensity vector instead of failing. -/
theorem zero_dims_cex :
    beU32 (zeroDimImg.drop 8) = 0 ∧
      readIntensities zeroDimImg = .ok [[]] 0 2 := by decide

/-- Claim C3 (amended): if the image header parses with `width = 0` or
`height = 0` (the 16 header bytes being present), decoding succeeds and
returns `count` empty intensity vectors together with the parsed dimensions;
the decoder performs no dimension validation. -/
theorem zero_dims_decode (s : List Byte) (h16 : 16 ≤ s.length)
    (hz : beU32 (s.drop 8) * beU32 (s.drop 12) = 0) :
    readIntensities s =
      .ok (List.replicate (beU32 (s.drop 4)) []) (beU32 (s.drop 8))
        (beU32 (s.drop 12)) := by
  unfold readIntensities
  rw [if_neg (by omega), goMulInt64_zero _ _ hz, readBlocks_zero_prod]

/-- Witness for amended C3 at `zeroDimImg`. -/
theorem zero_dims_decode_witness :
    16 ≤ zeroDimImg.length ∧
      beU32 (zeroDimImg.drop 8) * beU32 (zeroDimImg.drop 12) = 0 ∧
      readIntensities zeroDimImg =
        .ok (List.replicate (beU32 (zeroDimImg.drop 4)) [])
          (beU32 (zeroDimImg.drop 8)) (beU32 (zeroDimImg.drop 12)) :=
  ⟨by decide, by decide, zero_dims_decode zeroDimImg (by decide) (by decide)⟩

/-- Counterexample to C4: in `hugeDimImg` the single image block has far
fewer than `width * height` bytes available, yet the decoder does not fail
with the truncated-image-data error: `width * height` wraps to a negative
`int` and `make([]uint8, width*height)` panics. -/
theorem truncated_image_cex :
    hugeDimImg.length - 16 <
        beU32 (hugeDimImg.drop 8) * beU32 (hugeDimImg.drop 12) ∧
      readIntensities hugeDimImg = .panics ∧
      readIntensities hugeDimImg ≠ .error .notEnoughData := by decide

/-- Claim C4 (amended): for every image stream whose 16 header bytes are
present, whose `width * height` product stays below `2^63` (no wraparound in
the 64-bit `int`), and whose data region holds fewer than
`count * width * height` bytes, the decoder fails with the
truncated-image-data error and returns no result at all; when the product
wraps to a negative `int`, the decoder instead panics on the negative-length
allocation. -/
theorem truncated_image_error (s : List Byte) (h16 : 16 ≤ s.length)
    (hfit : beU32 (s.drop 8) * beU32 (s.drop 12) < 2 ^ 63)
    (hshort : s.length <
        16 + beU32 (s.drop 4) * (beU32 (s.drop 8) * beU32 (s.drop 12))) :
    readIntensities s = .error .notEnoughData := by
  unfold readIntensities
  rw [if_neg (by omega), goMulInt64_of_lt _ _ hfit, readBlocks_truncated]
  rw [List.length_drop]
  omega

/-- Witness for amended C4 at `shortImg`. -/
theorem truncated_image_error_witness :
    16 ≤ shortImg.length ∧
      beU32 (shortImg.drop 8) * beU32 (shortImg.drop 12) < 2 ^ 63 ∧
      shortImg.length <
        16 + beU32 (shortImg.drop 4) *
          (beU32 (shortImg.drop 8) * beU32 (shortImg.drop 12)) ∧
      readIntensities shortImg = .error .notEnoughData :=
  ⟨by decide, by decide, by decide,
    truncated_image_error shortImg (by decide) (by decide) (by decide)⟩

/-- Claim C5: the label decoder skips the first 8 bytes, then reads exactly
`count` single bytes, returning them in order as unsigned integer labels; if
fewer than `count` bytes remain (or the 8 prefix bytes are missing) it fails
with an error and returns no partial result. -/
theorem label_decoder_spec (s : List Byte) (count : Nat) :
    readLabels s count =
      if 8 + count ≤ s.length then
        .ok (((s.drop 8).take count).map Fin.val)
      else .error (if s.length < 8 then .headerShort else .unexpectedEnd) :=
  readLabels_eq s count

/-- Claim C6: for every raw pixel byte `b`, the assembler stores the
normalized intensity `b / 255` in the sample's intensity vector, and every
normalized intensity value lies in `[0, 1]`. -/
theorem normalization_exact (img lab : List Byte) (blocks : List (List Byte))
    (w h : Nat) (d : DataSet)
    (hI : readIntensities img = .ok blocks w h)
    (hok : loadDataSet (some img) (some lab) = .ok d) :
    (∀ b : Byte, normalizeByte b = (b.val : ℚ) / 255 ∧
        0 ≤ normalizeByte b ∧ normalizeByte b ≤ 1) ∧
    (∃ labels, readLabels lab blocks.length = .ok labels ∧
        d.Samples = (blocks.zip labels).map
          (fun p => { Intensities := p.1.map normalizeByte, Label := p.2 })) ∧
    ∀ sm ∈ d.Samples, ∀ x ∈ sm.Intensities, 0 ≤ x ∧ x ≤ 1 := by
  have hb : ∀ b : Byte, normalizeByte b = (b.val : ℚ) / 255 ∧
      0 ≤ normalizeByte b ∧ normalizeByte b ≤ 1 := by
    intro b
    refine ⟨rfl, ?_, ?_⟩
    · unfold normalizeByte
      positivity
    · unfold normalizeByte
      rw [div_le_one (by norm_num)]
      have hle : b.val ≤ 255 := by omega
      exact_mod_cast hle
  obtain ⟨blocks', w', h', labels, hI', hL, rfl⟩ := loadDataSet_ok_elim img lab d hok
  rw [hI] at hI'
  injection hI' with e1 e2 e3
  subst e1; subst e2; subst e3
  refine ⟨hb, ⟨labels, hL, rfl⟩, ?_⟩
  intro sm hsm x hx
  obtain ⟨⟨blk, lb⟩, hp, rfl⟩ := List.mem_map.mp hsm
  obtain ⟨b, hbm, rfl⟩ := List.mem_map.mp hx
  exact (hb b).2

/-- Witness for C6 at the concrete streams `exImg` and `exLab`. -/
theorem normalization_exact_witness :
    readIntensities exImg = .ok exBlocks 2 2 ∧
      loadDataSet (some exImg) (some exLab) = .ok exDS ∧
      ∀ sm ∈ exDS.Samples, ∀ x ∈ sm.Intensities, 0 ≤ x ∧ x ≤ 1 :=
  ⟨by decide, rfl,
    (normalization_exact exImg exLab exBlocks 2 2 exDS (by decide) rfl).2.2⟩

/-- Claim C7: for every `DataSet` whose samples all have labels in `[0, 9]`
and every index `i`, `LabelVectors` succeeds and its `i`-th vector has length
10, holds 1 at index `Samples[i].Label`, and 0 at every other index. -/
theorem label_vectors_one_hot (d : DataSet)
    (hall : ∀ sm ∈ d.Samples, sm.Label < 10) :
    ∃ vs, LabelVectors d = .ok vs ∧ vs.length = d.Samples.length ∧
      ∀ i, i < vs.length →
        (vs.getD i []).length = 10 ∧
        (vs.getD i []).getD (d.Samples.getD i default).Label 0 = 1 ∧
        ∀ j, j < 10 → j ≠ (d.Samples.getD i default).Label →
          (vs.getD i []).getD j 0 = 0 := by
  refine ⟨d.Samples.map (fun sm => (List.replicate 10 (0 : ℚ)).set sm.Label 1),
    ?_, by rw [List.length_map], ?_⟩
  · unfold LabelVectors
    rw [labelVectorsLoop_all d.Samples hall]
  · intro i hi
    rw [List.length_map] at hi
    have hgd : (d.Samples.map
        (fun sm => (List.replicate 10 (0 : ℚ)).set sm.Label 1)).getD i [] =
        (List.replicate 10 (0 : ℚ)).set (d.Samples.getD i default).Label 1 := by
      rw [List.getD_eq_getElem _ _ (by simpa using hi),
        List.getElem_map _, List.getD_eq_getElem _ _ hi]
    have hL : (d.Samples.getD i default).Label < 10 := by
      refine hall _ ?_
      rw [List.getD_eq_getElem _ _ hi]
      exact List.getElem_mem hi
    rw [hgd]
    exact ⟨oneHot_length _, oneHot_getD_self _ hL,
      fun j _ hj => oneHot_getD_other _ j hj⟩

/-- Witness for C7 at the concrete dataset `smallDS`. -/
theorem label_vectors_one_hot_witness :
    (∀ sm ∈ smallDS.Samples, sm.Label < 10) ∧
      ∃ vs, LabelVectors smallDS = .ok vs ∧
        vs.length = smallDS.Samples.length ∧
        ∀ i, i < vs.length →
          (vs.getD i []).length = 10 ∧
          (vs.getD i []).getD (smallDS.Samples.getD i default).Label 0 = 1 ∧
          ∀ j, j < 10 → j ≠ (smallDS.Samples.getD i default).Label →
            (vs.getD i []).getD j 0 = 0 :=
  ⟨by decide, label_vectors_one_hot smallDS (by decide)⟩

/-- Claim C8: decoding is independent of the ignored prefix bytes — image
streams differing only in their first 4 bytes, and label streams differing
only in their first 8 bytes, decode identically; the prefixes are discarded,
never validated. -/
theorem prefix_bytes_ignored (p1 p2 r q1 q2 t : List Byte) (count : Nat)
    (h1 : p1.length = 4) (h2 : p2.length = 4)
    (h3 : q1.length = 8) (h4 : q2.length = 8) :
    readIntensities (p1 ++ r) = readIntensities (p2 ++ r) ∧
      readLabels (q1 ++ t) count = readLabels (q2 ++ t) count := by
  constructor
  · rw [readIntensities_pref p1 r h1, readIntensities_pref p2 r h2]
  · rw [readLabels_eq, readLabels_eq, List.length_append, h3,
      List.length_append, h4, show (q1 ++ t).drop 8 = t by
        rw [← h3, List.drop_left], show (q2 ++ t).drop 8 = t by
        rw [← h4, List.drop_left]]

/-- Witness for C8 at two concrete prefix pairs. -/
theorem prefix_bytes_ignored_witness :
    ([1, 2, 3, 4] : List Byte).length = 4 ∧
      ([9, 9, 9, 9] : List Byte).length = 4 ∧
      ([5, 5, 5, 5, 5, 5, 5, 5] : List Byte).length = 8 ∧
      ([0, 0, 0, 0, 0, 0, 0, 0] : List Byte).length = 8 ∧
      (readIntensities ([1, 2, 3, 4] ++ exImg.drop 4) =
          readIntensities ([9, 9, 9, 9] ++ exImg.drop 4) ∧
        readLabels ([5, 5, 5, 5, 5, 5, 5, 5] ++ [3, 7]) 2 =
          readLabels ([0, 0, 0, 0, 0, 0, 0, 0] ++ [3, 7]) 2) :=
  ⟨by decide, by decide, by decide, by decide,
    prefix_bytes_ignored [1, 2, 3, 4] [9, 9, 9, 9] (exImg.drop 4)
      [5, 5, 5, 5, 5, 5, 5, 5] [0, 0, 0, 0, 0, 0, 0, 0] [3, 7] 2
      (by decide) (by decide) (by decide) (by decide)⟩

/-- Claim C9: for every `DataSet` containing a sample whose label is outside
`[0, 9]`, `LabelVectors` performs an out-of-bounds write on the length-10
vector when setting that label's index — the run panics; the implementation
does not guard, clamp, or skip such labels. -/
theorem label_out_of_range (d : DataSet) (sm : Sample)
    (hm : sm ∈ d.Samples) (hL : 10 ≤ sm.Label) :
    LabelVectors d = .panics := by
  unfold LabelVectors
  rw [labelVectorsLoop_bad d.Samples sm hm hL]

/-- Witness for C9 at the concrete dataset `badDS`. -/
theorem label_out_of_range_witness :
    ({ Intensities := [], Label := 10 } : Sample) ∈ badDS.Samples ∧
      10 ≤ ({ Intensities := [], Label := 10 } : Sample).Label ∧
      LabelVectors badDS = .panics :=
  ⟨by decide, by decide,
    label_out_of_range badDS { Intensities := [], Label := 10 }
      (by decide) (by decide)⟩

/-- Claim C10: the public loading entry points either return a fully
assembled `DataSet` or panic: on a decompression failure (modelled by a
`none` stream, on which `assetReader` panics) or on any image/label decode
error they panic instead of returning an error value or a partial dataset. -/
theorem load_entry_points_total (imgZ labZ : Option (List Byte)) :
    LoadTrainingDataSet imgZ labZ = loadDataSet imgZ labZ ∧
    LoadTestingDataSet imgZ labZ = loadDataSet imgZ labZ ∧
    ((∃ d, loadDataSet imgZ labZ = .ok d) ∨ loadDataSet imgZ labZ = .panics) ∧
    (imgZ = none → loadDataSet imgZ labZ = .panics) ∧
    (∀ img e, imgZ = some img → readIntensities img = .error e →
        loadDataSet imgZ labZ = .panics) ∧
    (∀ img blocks w h, imgZ = some img →
        readIntensities img = .ok blocks w h → labZ = none →
        loadDataSet imgZ labZ = .panics) ∧
    (∀ img blocks w h lab e, imgZ = some img →
        readIntensities img = .ok blocks w h → labZ = some lab →
        readLabels lab blocks.length = .error e →
        loadDataSet imgZ labZ = .panics) := by
  refine ⟨rfl, rfl, ?_, ?_, ?_, ?_, ?_⟩
  · cases hres : loadDataSet imgZ labZ with
    | ok d => exact Or.inl ⟨d, rfl⟩
    | panics => exact Or.inr rfl
  · rintro rfl
    rfl
  · rintro img e rfl hI
    simp only [loadDataSet, hI]
  · rintro img blocks w h rfl hI rfl
    simp only [loadDataSet, hI]
  · rintro img blocks w h lab e rfl hI rfl hL
    simp only [loadDataSet, hI, hL]

/-- Witness for C10 at `none` streams. -/
theorem load_entry_points_total_witness :
    LoadTrainingDataSet none none = .panics ∧
      LoadTestingDataSet none none = .panics := by
  have hc := load_entry_points_total none none
  exact ⟨hc.1.trans (hc.2.2.2.1 rfl), hc.2.1.trans (hc.2.2.2.1 rfl)⟩

end Mnist
